import Mathlib

/-!
# Verification of the capa-annotator core

A shallow embedding of the capa-annotator controller's core logic:

* the annotation-writing step of `Reconciler.reconcile`
  (pkg/controller/controller.go),
* the region-resolution chain `ResolveRegion` / `getRegionFromAWSCluster`
  and the template resolution helpers (pkg/utils),
* the AWS client pieces `validateRegion`, `newAWSSession` and
  `regionCache.GetCachedDescribeRegions` (pkg/client/client.go),
* the per-region instance-type cache, whose implementation file
  (pkg/controller/ec2_instance_types.go) is not part of this source tree;
  it is modelled from the specification where needed.

Go strings are embedded as `List Char` (UTF-8 byte order on Go strings
coincides with code-point order, so lexicographic comparison agrees).
Go maps are embedded as association lists with overwrite-on-insert;
Go's random iteration order is irrelevant wherever the code sorts the
collected entries before use, which is the only place iteration order
could be observed in the embedded fragments.
-/

namespace CapaAnnotator

/-- Go strings, embedded as lists of characters. -/
abbrev Str := List Char

/-- Coerce a Lean string literal to the embedding type. -/
def str (s : String) : Str := s.data

/-- The whitespace test used by Go's `strings.TrimSpace` (`unicode.IsSpace`),
restricted to the Latin-1 range, which covers every character the embedded
code paths can meet in annotation values of interest. -/
def isSpaceChar (c : Char) : Bool :=
  c = ' ' || c = '\t' || c = '\n' || c = '\x0b' || c = '\x0c' || c = '\r' ||
    c = '\x85' || c = '\xa0'

/-- Go's `strings.Split(s, ",")`: split around every comma.
`strings.Split("", ",")` is `[""]`, hence the `[[]]` base case. -/
def splitComma : Str → List Str
  | [] => [[]]
  | c :: rest =>
    if c = ',' then [] :: splitComma rest
    else
      match splitComma rest with
      | [] => [[c]]
      | s :: ss => (c :: s) :: ss

/-- Go's `strings.Join(ps, ",")`. -/
def joinComma : List Str → Str
  | [] => []
  | [p] => p
  | p :: q :: rest => p ++ ',' :: joinComma (q :: rest)

/-- Go's `strings.TrimSpace`: drop leading and trailing whitespace. -/
def trimSpace (s : Str) : Str :=
  ((s.dropWhile isSpaceChar).reverse.dropWhile isSpaceChar).reverse

/-- Go's `strings.SplitN(s, "=", 2)`: `some (k, v)` when `s = k ++ "=" ++ v`
with `k` the part before the first `'='` (so that `SplitN` returned two
parts), `none` when `s` contains no `'='` (one part). -/
def splitFirstEq : Str → Option (Str × Str)
  | [] => none
  | c :: rest =>
    if c = '=' then some ([], rest)
    else
      match splitFirstEq rest with
      | none => none
      | some (k, v) => some (c :: k, v)

/-- The comparison used by Go's `sort.Strings`: lexicographic order,
here the lexicographic `LinearOrder` on `List Char`. -/
def strLe (a b : Str) : Bool := decide (a ≤ b)

/-- Association-list embedding of a Go `map[string]V` write
`m[k] = v`: overwrite the entry if the key is present, add it otherwise. -/
def insertS {α : Type} : List (Str × α) → Str → α → List (Str × α)
  | [], k, v => [(k, v)]
  | (k', v') :: rest, k, v =>
    if k' = k then (k, v) :: rest else (k', v') :: insertS rest k v

/-- Association-list embedding of a Go `map[string]V` read `m[k]`
(`none` plays the role of `ok == false`). -/
def lookupS {α : Type} : List (Str × α) → Str → Option α
  | [], _ => none
  | (k', v') :: rest, k => if k' = k then some v' else lookupS rest k

/-! ## Data model -/

/-- The normalized CPU architecture (`normalizedArch`); per the data model it
is an enum with exactly the two values `amd64` and `arm64`, the only values
`normalizeArchitecture` ever produces. -/
inductive NormalizedArch : Type
  | amd64
  | arm64
deriving DecidableEq

/-- The Go string conversion `string(instanceTypeInfo.CPUArchitecture)`. -/
def NormalizedArch.toStr : NormalizedArch → Str
  | .amd64 => str "amd64"
  | .arm64 => str "arm64"

/-- The `InstanceType` capacity descriptor
(`instanceType`, `VCPU`, `MemoryMb`, `GPU`, `CPUArchitecture`). -/
structure InstanceType : Type where
  instanceType : Str
  vcpu : Int
  memoryMb : Int
  gpu : Int
  cpuArchitecture : NormalizedArch
deriving DecidableEq

/-- Go's `strconv.FormatInt(i, 10)` on an `int64` value. -/
def formatInt (i : Int) : Str := (toString i).data

/-- A Kubernetes annotation map (`map[string]string`); a `nil` map and an
empty map are both embedded as `[]` (the code initializes a `nil` map before
writing, which is the identity here). -/
abbrev AnnotationsMap := List (Str × Str)

/-! ## Annotation writer (controller.go, `reconcile`, annotation step) -/

def cpuKey : Str := str "machine.openshift.io/vCPU"
def memoryKey : Str := str "machine.openshift.io/memoryMb"
def gpuKey : Str := str "machine.openshift.io/GPU"
def labelsKey : Str := str "capacity.cluster-autoscaler.kubernetes.io/labels"
def archLabelKey : Str := str "kubernetes.io/arch"

/-- One iteration of the label-parsing loop:
`parts := strings.SplitN(strings.TrimSpace(label), "=", 2);
if len(parts) == 2 { labelsMap[parts[0]] = parts[1] }`. -/
def parseLabel (lm : AnnotationsMap) (label : Str) : AnnotationsMap :=
  match splitFirstEq (trimSpace label) with
  | some (k, v) => insertS lm k v
  | none => lm

/-- The label-parsing loop over `strings.Split(existingLabels, ",")`. -/
def parseLabels (existingLabels : Str) : AnnotationsMap :=
  (splitComma existingLabels).foldl parseLabel []

/-- Serialization of one labels-map entry: `fmt.Sprintf("%s=%s", k, v)`. -/
def serPair (p : Str × Str) : Str := p.1 ++ '=' :: p.2

/-- The annotation-writing step of `reconcile` (controller.go): overwrite the
three numeric annotations, parse the existing comma-separated labels
annotation (when present and non-empty) into a map, overwrite the
architecture key, serialize each entry as `k=v`, `sort.Strings` the pairs and
join them with commas.  The Go map's entry multiset determines the sorted
output, so the association-list representation is faithful despite Go's
unspecified map iteration order. -/
def setCapacityAnnotations (annotations : AnnotationsMap) (info : InstanceType) :
    AnnotationsMap :=
  let a1 := insertS annotations cpuKey (formatInt info.vcpu)
  let a2 := insertS a1 memoryKey (formatInt info.memoryMb)
  let a3 := insertS a2 gpuKey (formatInt info.gpu)
  let labelsMap : AnnotationsMap :=
    match lookupS a3 labelsKey with
    | some existingLabels =>
      if existingLabels ≠ [] then parseLabels existingLabels else []
    | none => []
  let labelsMap := insertS labelsMap archLabelKey info.cpuArchitecture.toStr
  let labels := (labelsMap.map serPair).mergeSort strLe
  insertS a3 labelsKey (joinComma labels)

/-! ## Kubernetes object model and region/template resolution (pkg/utils) -/

/-- A `client.ObjectKey` (namespace + name). -/
structure ObjectKey : Type where
  name : Str
  nspace : Str
deriving DecidableEq

/-- A `corev1.ObjectReference` as used by the embedded code
(kind, name, optional namespace). -/
structure ObjectRef : Type where
  kind : Str
  name : Str
  nspace : Str
deriving DecidableEq

/-- An `AWSMachineTemplate`; only `Spec.Template.Spec.InstanceType` is read. -/
structure AWSMachineTemplate : Type where
  instanceType : Str
deriving DecidableEq

/-- A CAPI `Cluster`; only namespace and `Spec.InfrastructureRef` are read
(`none` embeds a nil reference pointer). -/
structure Cluster : Type where
  name : Str
  nspace : Str
  infrastructureRef : Option ObjectRef
deriving DecidableEq

/-- An `AWSCluster`; only `Spec.Region` is read. -/
structure AWSCluster : Type where
  name : Str
  region : Str
deriving DecidableEq

/-- A CAPI `MachineDeployment`: the fields the embedded code reads
(metadata, annotations, `Spec.ClusterName`, and
`Spec.Template.Spec.InfrastructureRef`). -/
structure MachineDeployment : Type where
  name : Str
  nspace : Str
  annotations : AnnotationsMap
  clusterName : Str
  infraRef : ObjectRef
deriving DecidableEq

/-- The resource-fetch interface `c.Get(ctx, key, obj)`, embedded as the
state of the API server for the three fetched kinds: `none` is a not-found
(or any other fetch) error, `some` a successful fetch. -/
structure KubeStore : Type where
  clusters : ObjectKey → Option Cluster
  awsClusters : ObjectKey → Option AWSCluster
  awsMachineTemplates : ObjectKey → Option AWSMachineTemplate

/-- `RegionAnnotation`, the fallback annotation for the AWS region. -/
def RegionAnnotation : Str := str "capa.infrastructure.cluster.x-k8s.io/region"

/-- `utils.ResolveAWSMachineTemplate`: check the reference name is non-empty
and the kind is `AWSMachineTemplate`, default the namespace to the
MachineDeployment's own, and fetch. -/
def ResolveAWSMachineTemplate (store : KubeStore) (md : MachineDeployment) :
    Except Str AWSMachineTemplate :=
  if md.infraRef.name = [] then .error (str "infrastructureRef.name is empty")
  else if md.infraRef.kind ≠ str "AWSMachineTemplate" then
    .error (str "expected AWSMachineTemplate, got " ++ md.infraRef.kind)
  else
    let key : ObjectKey :=
      ⟨md.infraRef.name,
        if md.infraRef.nspace = [] then md.nspace else md.infraRef.nspace⟩
    match store.awsMachineTemplates key with
    | none => .error (str "failed to fetch AWSMachineTemplate")
    | some template => .ok template

/-- `utils.ExtractInstanceType` (the nil-template branch cannot arise here,
since the resolver returns a value, not a pointer). -/
def ExtractInstanceType (template : AWSMachineTemplate) : Except Str Str :=
  if template.instanceType = [] then
    .error (str "instanceType is empty in AWSMachineTemplate")
  else .ok template.instanceType

/-- `utils.getRegionFromAWSCluster`: MachineDeployment → Cluster →
AWSCluster → non-empty `Spec.Region`, failing on a missing object, a nil or
empty infrastructure reference, or an empty region field. -/
def getRegionFromAWSCluster (store : KubeStore) (md : MachineDeployment) :
    Except Str Str :=
  match store.clusters ⟨md.clusterName, md.nspace⟩ with
  | none => .error (str "failed to fetch Cluster")
  | some cluster =>
    match cluster.infrastructureRef with
    | none => .error (str "cluster has nil infrastructureRef")
    | some ref =>
      if ref.name = [] then .error (str "cluster has empty infrastructureRef.Name")
      else
        let key : ObjectKey :=
          ⟨ref.name, if ref.nspace = [] then cluster.nspace else ref.nspace⟩
        match store.awsClusters key with
        | none => .error (str "failed to fetch AWSCluster")
        | some awsCluster =>
          if awsCluster.region = [] then
            .error (str "AWSCluster has empty region")
          else .ok awsCluster.region

/-- `utils.ResolveRegion`: try the cluster chain when `Spec.ClusterName` is
set, logging and falling through on its failure; then the fallback
annotation when present and non-empty; otherwise fail. -/
def ResolveRegion (store : KubeStore) (md : MachineDeployment) : Except Str Str :=
  let viaCluster : Option Str :=
    if md.clusterName ≠ [] then
      match getRegionFromAWSCluster store md with
      | .ok region => some region
      | .error _ => none
    else none
  match viaCluster with
  | some region => .ok region
  | none =>
    match lookupS md.annotations RegionAnnotation with
    | some region =>
      if region ≠ [] then .ok region
      else .error (str "unable to determine AWS region from AWSCluster or annotation")
    | none => .error (str "unable to determine AWS region from AWSCluster or annotation")

/-- `Reconciler.reconcile` (controller.go): the strictly sequential step
chain.  The AWS client construction and the instance-type cache are passed
as the results they would produce (`clientErr`: error from
`r.AwsClientBuilder`, `getInstanceType`: `r.InstanceTypesCache.GetInstanceType`
as a function of region and instance-type name).  The returned pair is the
possibly updated MachineDeployment and the returned error; the
`ctrl.Result` value is `ctrl.Result{}` on every path of the source and is
omitted.  On a cache error the source logs, emits a warning event and
returns `ctrl.Result{}, nil` without touching the annotations. -/
def reconcile (store : KubeStore) (clientErr : Option Str)
    (getInstanceType : Str → Str → Except Str InstanceType)
    (md : MachineDeployment) : MachineDeployment × Option Str :=
  match ResolveAWSMachineTemplate store md with
  | .error e => (md, some e)
  | .ok template =>
    match ExtractInstanceType template with
    | .error e => (md, some e)
    | .ok instanceType =>
      match ResolveRegion store md with
      | .error e => (md, some e)
      | .ok region =>
        match clientErr with
        | some e => (md, some (str "error creating aws client: " ++ e))
        | none =>
          match getInstanceType region instanceType with
          | .error _ => (md, none)
          | .ok info =>
            ({ md with annotations := setCapacityAnnotations md.annotations info },
              none)

/-! ## AWS client (pkg/client/client.go) -/

/-- An `ec2.Region` entry of a `DescribeRegionsOutput`; the code dereferences
`RegionName` and `OptInStatus` of every non-nil entry it inspects, so the
fields are embedded as values. -/
structure EC2Region : Type where
  regionName : Str
  optInStatus : Str
deriving DecidableEq

/-- An `ec2.DescribeRegionsOutput`: a slice of possibly-nil region entries. -/
abbrev DescribeRegionsOutput := List (Option EC2Region)

/-- The scan of `validateRegion`'s `for` loop: the first non-nil entry whose
`RegionName` equals the requested region, if any. -/
def findRegion : DescribeRegionsOutput → Str → Option EC2Region
  | [], _ => none
  | none :: rest, region => findRegion rest region
  | some r :: rest, region =>
    if r.regionName = region then some r else findRegion rest region

def notValidRegionMsg (region : Str) : Str :=
  str "region " ++ region ++ str " is not a valid region"

def notOptedInMsg (region : Str) : Str :=
  str "region " ++ region ++ str " is not opted in"

/-- `client.validateRegion`: find the region in the `DescribeRegions` output;
absent is an "is not a valid region" error, present with opt-in status
`"not-opted-in"` an "is not opted in" error, anything else success. -/
def validateRegion (out : DescribeRegionsOutput) (region : Str) :
    Except Str EC2Region :=
  match findRegion out region with
  | none => .error (notValidRegionMsg region)
  | some regionData =>
    if regionData.optInStatus = str "not-opted-in" then
      .error (notOptedInMsg region)
    else .ok regionData

/-- The credential-source variant selected by `newAWSSession`; in the source
the branch only logs, because the AWS SDK performs the same detection from
the environment, so the mode records which branch was taken. -/
inductive AuthMode : Type
  | irsa
  | ambientChain
deriving DecidableEq

/-- The result of `newAWSSession` (pkg/client/client.go): a session bound to
the requested region, the selected credential mode, and the `klog` lines the
call emitted.  `session.NewSessionWithOptions` on a plain region-only config
is embedded as succeeding; the source has no failure path of its own. -/
structure AWSSession : Type where
  region : Str
  mode : AuthMode
  log : List Str
deriving DecidableEq

def irsaLogLead : Str := str "Using IRSA authentication with role: "

def ambientChainLogMsg : Str :=
  str "IRSA not configured, using default AWS credential chain (environment variables, ~/.aws/credentials, EC2 metadata, etc.)"

/-- `client.newAWSSession`: read `AWS_ROLE_ARN` and
`AWS_WEB_IDENTITY_TOKEN_FILE` (an unset variable reads as `""`), select IRSA
when both are non-empty and the ambient default credential chain otherwise,
and return a session bound to the requested region. -/
def newAWSSession (roleARN tokenFile region : Str) : AWSSession :=
  if roleARN ≠ [] ∧ tokenFile ≠ [] then
    { region := region, mode := .irsa, log := [irsaLogLead ++ roleARN] }
  else
    { region := region, mode := .ambientChain, log := [ambientChainLogMsg] }

/-! ## Region cache (pkg/client/client.go, `regionCache`) -/

/-- `awsRegionsCacheExpirationDuration = time.Minute * 30`, in seconds. -/
def awsRegionsCacheExpirationDuration : Nat := 30 * 60

/-- `client.DescribeRegionsData`: a cache entry holding the output of a
`DescribeRegions` call, an error field, and the last-update time.  The Go
zero value (for a key absent from the map) is `⟨none, none, 0⟩`. -/
structure DescribeRegionsData : Type where
  err : Option Str
  describeRegionsOutput : Option DescribeRegionsOutput
  lastUpdated : Nat
deriving DecidableEq

/-- The `regionCache` state: `data`, keyed by the credential `AccessKeyID`. -/
structure RegionCacheState : Type where
  data : List (Str × DescribeRegionsData)
deriving DecidableEq

/-- The part of an `*session.Session` that `GetCachedDescribeRegions` uses:
the mutable `Config.Region` and the credentials
(`Config.Credentials.Get()` yielding an `AccessKeyID` or failing). -/
instance {α β : Type} [DecidableEq α] [DecidableEq β] : DecidableEq (Except α β) :=
  fun x y =>
  match x, y with
  | .ok a, .ok b =>
    if h : a = b then .isTrue (by rw [h]) else .isFalse (by simp [h])
  | .error a, .error b =>
    if h : a = b then .isTrue (by rw [h]) else .isFalse (by simp [h])
  | .ok _, .error _ => .isFalse (by simp)
  | .error _, .ok _ => .isFalse (by simp)

structure SessionState : Type where
  region : Str
  credsResult : Except Str Str
deriving DecidableEq

/-- `regionCache.GetCachedDescribeRegions`: get the credentials key; serve a
cached entry when it has output, no error, and age below the 30-minute
expiration; otherwise swap `Config.Region` to `us-east-1`, issue
`DescribeRegions` (embedded as the function `fetch` of the region the call
is made with), restore the region, and on success store the refreshed entry.
On failure the error is assigned only to the local `regionData` copy, which
is not written back to the map.  Returns the new cache state, the session
state after the call, the result, and the number of `DescribeRegions` calls
made. -/
def GetCachedDescribeRegions (c : RegionCacheState) (s : SessionState) (now : Nat)
    (fetch : Str → Except Str DescribeRegionsOutput) :
    RegionCacheState × SessionState × Except Str DescribeRegionsOutput × Nat :=
  match s.credsResult with
  | .error e => (c, s, .error e, 0)
  | .ok credsKey =>
    let regionData := (lookupS c.data credsKey).getD ⟨none, none, 0⟩
    match regionData.describeRegionsOutput, regionData.err,
        decide (now - regionData.lastUpdated < awsRegionsCacheExpirationDuration) with
    | some cached, none, true => (c, s, .ok cached, 0)
    | _, _, _ =>
      let currentRegion := s.region
      let sDuring : SessionState := { s with region := str "us-east-1" }
      let fetchResult := fetch sDuring.region
      let sAfter : SessionState := { sDuring with region := currentRegion }
      match fetchResult with
      | .error e => (c, sAfter, .error e, 1)
      | .ok out =>
        let stored : DescribeRegionsData :=
          { regionData with describeRegionsOutput := some out, lastUpdated := now }
        ({ data := insertS c.data credsKey stored }, sAfter, .ok out, 1)

/-! ## Instance-type cache, modelled from the spec

The implementation file `pkg/controller/ec2_instance_types.go` is not part
of this source tree (only its callers and tests are), so the cache is
modelled from the specification. -/

/-- Modelled from the spec: the 24-hour refresh period of the instance-type
cache (missing `pkg/controller/ec2_instance_types.go`), in seconds. -/
def cacheRefreshPeriod : Nat := 24 * 60 * 60

/-- Modelled from the spec: a per-region `RegionInstanceTypeSet` of the
missing instance-type cache — the full catalog for one region plus the time
it was fetched. -/
structure RegionInstanceTypeSet : Type where
  entries : List (Str × InstanceType)
  fetchedAt : Nat
deriving DecidableEq

/-- Modelled from the spec: the state of the missing instance-type cache,
mapping a region to its `RegionInstanceTypeSet`. -/
structure InstanceTypesCacheState : Type where
  regions : List (Str × RegionInstanceTypeSet)
deriving DecidableEq

/-- Modelled from the spec: the staleness test of the missing cache — refresh
on a cache miss or an entry at least 24 hours old. -/
def refreshNeeded (st : InstanceTypesCacheState) (region : Str) (now : Nat) : Bool :=
  match lookupS st.regions region with
  | none => true
  | some rs => decide (cacheRefreshPeriod ≤ now - rs.fetchedAt)

/-- Modelled from the spec: the error for an instance-type name absent from
the up-to-date per-region set. -/
def unknownInstanceTypeMsg (instanceType : Str) : Str :=
  str "unknown instance type: " ++ instanceType

/-- Modelled from the spec: `GetInstanceType` of the missing instance-type
cache.  `pages` is the sequence of pages the paginated
`DescribeInstanceTypes` listing would yield for the region; a bulk fetch
follows every continuation token and accumulates all pages into one set,
which replaces the region's entire set wholesale.  Returns the new cache
state, the number of bulk fetches performed, and the lookup result. -/
def GetInstanceType (st : InstanceTypesCacheState) (now : Nat)
    (pages : List (List (Str × InstanceType))) (region instanceType : Str) :
    InstanceTypesCacheState × Nat × Except Str InstanceType :=
  let refreshed :=
    if refreshNeeded st region now then
      ({ regions := insertS st.regions region ⟨pages.flatten, now⟩ }, 1)
    else (st, 0)
  let result : Except Str InstanceType :=
    match lookupS refreshed.1.regions region with
    | none => .error (unknownInstanceTypeMsg instanceType)
    | some rs =>
      match lookupS rs.entries instanceType with
      | some info => .ok info
      | none => .error (unknownInstanceTypeMsg instanceType)
  (refreshed.1, refreshed.2, result)

/-- Modelled from the spec: the up-to-date per-region set a `GetInstanceType`
call resolves its lookup against — the freshly fetched catalog after a
refresh, the still-valid snapshot otherwise. -/
def upToDateEntries (st : InstanceTypesCacheState) (now : Nat)
    (pages : List (List (Str × InstanceType))) (region : Str) :
    List (Str × InstanceType) :=
  if refreshNeeded st region now then pages.flatten
  else ((lookupS st.regions region).getD ⟨[], 0⟩).entries

/-- Modelled from the spec: `normalizeArchitecture` of the missing
instance-type cache — map `"x86_64"` to `amd64`, `"arm64"` to `arm64`, and
default everything else to `amd64`. -/
def normalizeArchitecture (arch : Str) : NormalizedArch :=
  if arch = str "x86_64" then .amd64
  else if arch = str "arm64" then .arm64
  else .amd64

/-! ## Derived definitions used by the proofs -/

/-- All entries holding the given key removed; `insertS` rewrites, modulo
permutation, to a cons onto this. -/
def eraseKey {α : Type} : List (Str × α) → Str → List (Str × α)
  | [], _ => []
  | (k', v') :: rest, k =>
    if k' = k then eraseKey rest k else (k', v') :: eraseKey rest k

/-- Invariant of every entry a label-parsing pass can produce. -/
def WFEntry (e : Str × Str) : Prop :=
  '=' ∉ e.1 ∧ ',' ∉ e.1 ∧ ',' ∉ e.2 ∧
    (∀ c, e.1.head? = some c → isSpaceChar c = false) ∧
    (∀ c, e.2.getLast? = some c → isSpaceChar c = false)

def parseEntry (q : Str) : Str × Str := (splitFirstEq (trimSpace q)).getD ([], [])

/-- The first three numeric-annotation writes of the annotation step. -/
def numAnnotations (a : AnnotationsMap) (info : InstanceType) : AnnotationsMap :=
  insertS (insertS (insertS a cpuKey (formatInt info.vcpu)) memoryKey
    (formatInt info.memoryMb)) gpuKey (formatInt info.gpu)

/-- The labels map the annotation step parses out of an annotation map. -/
def labelsMapOf (a3 : AnnotationsMap) : AnnotationsMap :=
  match lookupS a3 labelsKey with
  | some existingLabels =>
    if existingLabels ≠ [] then parseLabels existingLabels else []
  | none => []

/-- The serialized labels value the annotation step writes. -/
def labelsValue (a3 : AnnotationsMap) (info : InstanceType) : Str :=
  joinComma (((insertS (labelsMapOf a3) archLabelKey
    info.cpuArchitecture.toStr).map serPair).mergeSort strLe)

/-! ## Lemmas: association lists, split/join/trim, parsing and sorting -/

theorem insertS_cons_pos {α : Type} (rest : List (Str × α)) (ke k : Str) (ve v : α)
    (he : ke = k) : insertS ((ke, ve) :: rest) k v = (k, v) :: rest := by
  simp [insertS, he]

theorem insertS_cons_neg {α : Type} (rest : List (Str × α)) (ke k : Str) (ve v : α)
    (he : ¬ke = k) : insertS ((ke, ve) :: rest) k v = (ke, ve) :: insertS rest k v := by
  simp [insertS, he]

theorem mem_keys_insertS {α : Type} (m : List (Str × α)) (k a : Str) (v : α) :
    a ∈ (insertS m k v).map Prod.fst ↔ a ∈ m.map Prod.fst ∨ a = k := by
  induction m with
  | nil =>
    simp only [insertS, List.map_cons, List.map_nil, List.mem_singleton,
      List.not_mem_nil, false_or]
  | cons e rest ih =>
    obtain ⟨ke, ve⟩ := e
    by_cases he : ke = k
    · subst he
      rw [insertS_cons_pos rest ke ke ve v rfl]
      simp only [List.map_cons, List.mem_cons]
      tauto
    · rw [insertS_cons_neg rest ke k ve v he]
      simp only [List.map_cons, List.mem_cons, ih]
      tauto

theorem keys_insertS_nodup {α : Type} (m : List (Str × α)) (k : Str) (v : α)
    (h : (m.map Prod.fst).Nodup) : ((insertS m k v).map Prod.fst).Nodup := by
  induction m with
  | nil => simp [insertS]
  | cons e rest ih =>
    obtain ⟨ke, ve⟩ := e
    simp only [List.map_cons, List.nodup_cons] at h
    by_cases he : ke = k
    · subst he
      rw [insertS_cons_pos rest ke ke ve v rfl]
      simp only [List.map_cons, List.nodup_cons]
      exact h
    · rw [insertS_cons_neg rest ke k ve v he]
      simp only [List.map_cons, List.nodup_cons]
      refine ⟨?_, ih h.2⟩
      rw [mem_keys_insertS]
      rintro (hmem | hmem)
      · exact h.1 hmem
      · exact he hmem

theorem lookupS_eq_none_of_not_mem_keys {α : Type} (m : List (Str × α)) (k : Str)
    (h : k ∉ m.map Prod.fst) : lookupS m k = none := by
  induction m with
  | nil => simp [lookupS]
  | cons e rest ih =>
    obtain ⟨ke, ve⟩ := e
    simp only [List.map_cons, List.mem_cons] at h
    push_neg at h
    have h1 : ¬ke = k := fun hh => h.1 hh.symm
    simp [lookupS, h1, ih h.2]

theorem mem_keys_of_lookupS_eq_some {α : Type} (m : List (Str × α)) (k : Str)
    {v : α} (h : lookupS m k = some v) : k ∈ m.map Prod.fst := by
  induction m with
  | nil => simp [lookupS] at h
  | cons e rest ih =>
    obtain ⟨ke, ve⟩ := e
    by_cases he : ke = k
    · simp only [List.map_cons, List.mem_cons]
      left
      exact he.symm
    · simp only [lookupS, he, if_false] at h
      simp only [List.map_cons, List.mem_cons]
      right
      exact ih h

theorem eraseKey_of_not_mem_keys {α : Type} (m : List (Str × α)) (k : Str)
    (h : k ∉ m.map Prod.fst) : eraseKey m k = m := by
  induction m with
  | nil => simp [eraseKey]
  | cons e rest ih =>
    obtain ⟨ke, ve⟩ := e
    simp only [List.map_cons, List.mem_cons] at h
    push_neg at h
    have h1 : ¬ke = k := fun hh => h.1 hh.symm
    simp [eraseKey, h1, ih h.2]

theorem insertS_perm_cons_eraseKey {α : Type} (m : List (Str × α)) (k : Str) (v : α)
    (h : (m.map Prod.fst).Nodup) :
    (insertS m k v).Perm ((k, v) :: eraseKey m k) := by
  induction m with
  | nil => simp [insertS, eraseKey]
  | cons e rest ih =>
    obtain ⟨ke, ve⟩ := e
    simp only [List.map_cons, List.nodup_cons] at h
    by_cases he : ke = k
    · subst he
      rw [insertS_cons_pos rest ke ke ve v rfl]
      have hrest : eraseKey rest ke = rest := eraseKey_of_not_mem_keys rest ke h.1
      simp [eraseKey, hrest]
    · rw [insertS_cons_neg rest ke k ve v he]
      have step := (ih h.2).cons (ke, ve)
      refine step.trans ?_
      have hswap := List.Perm.swap (k, v) (ke, ve) (eraseKey rest k)
      refine hswap.trans ?_
      simp [eraseKey, he]

theorem insertS_of_lookupS_none {α : Type} (m : List (Str × α)) (k : Str) (v : α)
    (h : lookupS m k = none) : insertS m k v = m ++ [(k, v)] := by
  induction m with
  | nil => simp [insertS]
  | cons e rest ih =>
    obtain ⟨ke, ve⟩ := e
    by_cases he : ke = k
    · simp [lookupS, he] at h
    · simp only [lookupS, he, if_false] at h
      rw [insertS_cons_neg rest ke k ve v he, ih h]
      simp

theorem foldl_insertS_of_nodup {α : Type} (es : List (Str × α))
    (h : (es.map Prod.fst).Nodup) :
    es.foldl (fun m e => insertS m e.1 e.2) [] = es := by
  suffices hgen : ∀ (m : List (Str × α)),
      (∀ e ∈ es, e.1 ∉ m.map Prod.fst) →
      es.foldl (fun m e => insertS m e.1 e.2) m = m ++ es by
    simpa using hgen [] (by simp)
  induction es with
  | nil =>
    intro m _
    simp
  | cons e rest ih =>
    intro m hm
    simp only [List.map_cons, List.nodup_cons] at h
    have h1 : e.1 ∉ m.map Prod.fst := hm e (List.mem_cons_self e rest)
    have hins : insertS m e.1 e.2 = m ++ [(e.1, e.2)] :=
      insertS_of_lookupS_none m e.1 e.2 (lookupS_eq_none_of_not_mem_keys m e.1 h1)
    have hrest : ∀ p ∈ rest, p.1 ∉ (insertS m e.1 e.2).map Prod.fst := by
      intro p hp hmem
      rw [hins, List.map_append] at hmem
      rcases List.mem_append.mp hmem with hmem | hmem
      · exact hm p (List.mem_cons_of_mem e hp) hmem
      · simp only [List.map_cons, List.map_nil, List.mem_singleton] at hmem
        exact h.1 (hmem ▸ List.mem_map.mpr ⟨p, hp, rfl⟩)
    have hstep : (e :: rest).foldl (fun m e => insertS m e.1 e.2) m
        = rest.foldl (fun m e => insertS m e.1 e.2) (insertS m e.1 e.2) := by
      simp
    rw [hstep, ih h.2 _ hrest, hins]
    simp

theorem lookupS_insertS_self {α : Type} (m : List (Str × α)) (k : Str) (v : α) :
    lookupS (insertS m k v) k = some v := by
  induction m with
  | nil => simp [insertS, lookupS]
  | cons e rest ih =>
    obtain ⟨ke, ve⟩ := e
    by_cases he : ke = k
    · rw [insertS_cons_pos rest ke k ve v he]
      simp [lookupS]
    · rw [insertS_cons_neg rest ke k ve v he]
      simp [lookupS, he, ih]

theorem insertS_of_lookupS_eq {α : Type} (m : List (Str × α)) (k : Str) (v : α)
    (h : lookupS m k = some v) : insertS m k v = m := by
  induction m with
  | nil => simp [lookupS] at h
  | cons e rest ih =>
    obtain ⟨ke, ve⟩ := e
    by_cases he : ke = k
    · subst he
      simp only [lookupS, if_pos] at h
      rw [insertS_cons_pos rest ke ke ve v rfl]
      rw [Option.some.injEq] at h
      rw [h]
    · simp only [lookupS, he, if_false] at h
      rw [insertS_cons_neg rest ke k ve v he, ih h]

theorem splitComma_ne_nil (s : Str) : splitComma s ≠ [] := by
  induction s with
  | nil => simp [splitComma]
  | cons c rest ih =>
    by_cases hc : c = ','
    · simp [splitComma, hc]
    · simp only [splitComma, hc, if_false]
      rcases hs : splitComma rest with _ | ⟨q, qs⟩
      · simp
      · simp

theorem mem_splitComma_no_comma (s : Str) :
    ∀ q ∈ splitComma s, ',' ∉ q := by
  induction s with
  | nil =>
    intro q hq
    simp [splitComma] at hq
    simp [hq]
  | cons c rest ih =>
    intro q hq
    by_cases hc : c = ','
    · subst hc
      simp only [splitComma, if_true, eq_self_iff_true, List.mem_cons] at hq
      rcases hq with hq | hq
      · simp [hq]
      · exact ih q hq
    · simp only [splitComma, hc, if_false] at hq
      rcases hs : splitComma rest with _ | ⟨p, ps⟩
      · exact absurd hs (splitComma_ne_nil rest)
      · rw [hs] at hq
        simp only [List.mem_cons] at hq
        rcases hq with hq | hq
        · subst hq
          intro hmem
          rcases List.mem_cons.mp hmem with h1 | h1
          · exact hc h1.symm
          · exact ih p (by rw [hs]; exact List.mem_cons_self p ps) h1
        · exact ih q (by rw [hs]; exact List.mem_cons_of_mem p hq)

theorem splitComma_of_no_comma (p : Str) (h : ',' ∉ p) : splitComma p = [p] := by
  induction p with
  | nil => simp [splitComma]
  | cons c rest ih =>
    simp only [List.mem_cons] at h
    push_neg at h
    have hc : ¬c = ',' := fun hh => h.1 hh.symm
    have hr := ih h.2
    simp [splitComma, hc, hr]

theorem splitComma_append (p s : Str) (h : ',' ∉ p) :
    splitComma (p ++ ',' :: s) = p :: splitComma s := by
  induction p with
  | nil => simp [splitComma]
  | cons c rest ih =>
    simp only [List.mem_cons] at h
    push_neg at h
    have hc : ¬c = ',' := fun hh => h.1 hh.symm
    have hr := ih h.2
    simp only [List.cons_append, splitComma, hc, if_false]
    rw [show rest.append (',' :: s) = rest ++ ',' :: s from rfl, hr]

theorem splitComma_joinComma (ps : List Str) (hne : ps ≠ [])
    (h : ∀ p ∈ ps, ',' ∉ p) : splitComma (joinComma ps) = ps := by
  induction ps with
  | nil => exact absurd rfl hne
  | cons p rest ih =>
    rcases rest with _ | ⟨q, qs⟩
    · simp only [joinComma]
      exact splitComma_of_no_comma p (h p (List.mem_cons_self p []))
    · have hjoin : joinComma (p :: q :: qs) = p ++ ',' :: joinComma (q :: qs) := rfl
      rw [hjoin, splitComma_append p _ (h p (List.mem_cons_self p _)),
        ih (by simp) (fun r hr => h r (List.mem_cons_of_mem p hr))]

theorem head_dropWhile_not (p : Char → Bool) (s : Str) (c : Char)
    (h : (s.dropWhile p).head? = some c) : p c = false := by
  induction s with
  | nil => simp [List.dropWhile] at h
  | cons a rest ih =>
    by_cases ha : p a
    · rw [List.dropWhile_cons, if_pos ha] at h
      exact ih h
    · rw [List.dropWhile_cons, if_neg ha] at h
      simp only [List.head?_cons, Option.some.injEq] at h
      subst h
      exact Bool.eq_false_iff.mpr ha

theorem getLast_dropWhile_of_ne_nil (p : Char → Bool) (s : Str)
    (h : s.dropWhile p ≠ []) : (s.dropWhile p).getLast? = s.getLast? := by
  rcases List.dropWhile_suffix p (l := s) with ⟨w, hw⟩
  conv_rhs => rw [← hw]
  exact (List.getLast?_append_of_ne_nil w h).symm

theorem trimSpace_head (s : Str) (c : Char)
    (h : (trimSpace s).head? = some c) : isSpaceChar c = false := by
  unfold trimSpace at h
  rw [List.head?_reverse] at h
  set u := (s.dropWhile isSpaceChar).reverse with hu
  have hne : u.dropWhile isSpaceChar ≠ [] := by
    intro hnil
    rw [hnil] at h
    simp at h
  rw [getLast_dropWhile_of_ne_nil _ _ hne, hu, List.getLast?_reverse] at h
  exact head_dropWhile_not _ _ _ h

theorem trimSpace_getLast (s : Str) (c : Char)
    (h : (trimSpace s).getLast? = some c) : isSpaceChar c = false := by
  unfold trimSpace at h
  rw [List.getLast?_reverse] at h
  exact head_dropWhile_not _ _ _ h

theorem dropWhile_eq_self_of_head (p : Char → Bool) (s : Str)
    (h : ∀ c, s.head? = some c → p c = false) : s.dropWhile p = s := by
  cases s with
  | nil => simp
  | cons a rest =>
    rw [List.dropWhile_cons, if_neg]
    rw [h a rfl]
    simp

theorem trimSpace_eq_self (s : Str)
    (hh : ∀ c, s.head? = some c → isSpaceChar c = false)
    (hl : ∀ c, s.getLast? = some c → isSpaceChar c = false) :
    trimSpace s = s := by
  unfold trimSpace
  rw [dropWhile_eq_self_of_head _ _ hh]
  rw [dropWhile_eq_self_of_head]
  · simp
  · intro c hc
    rw [List.head?_reverse] at hc
    exact hl c hc

theorem mem_trimSpace (s : Str) (c : Char) (h : c ∈ trimSpace s) : c ∈ s := by
  unfold trimSpace at h
  rw [List.mem_reverse] at h
  have h1 := (List.dropWhile_suffix isSpaceChar).subset h
  rw [List.mem_reverse] at h1
  exact (List.dropWhile_suffix isSpaceChar).subset h1

theorem splitFirstEq_append (k v : Str) (h : '=' ∉ k) :
    splitFirstEq (k ++ '=' :: v) = some (k, v) := by
  induction k with
  | nil => simp [splitFirstEq]
  | cons c rest ih =>
    simp only [List.mem_cons] at h
    push_neg at h
    have hc : ¬c = '=' := fun hh => h.1 hh.symm
    have hr := ih h.2
    simp only [List.cons_append, splitFirstEq, hc, if_false]
    rw [show rest.append ('=' :: v) = rest ++ '=' :: v from rfl, hr]

theorem splitFirstEq_eq_some (s : Str) (k v : Str)
    (h : splitFirstEq s = some (k, v)) : s = k ++ '=' :: v ∧ '=' ∉ k := by
  induction s generalizing k v with
  | nil => simp [splitFirstEq] at h
  | cons c rest ih =>
    by_cases hc : c = '='
    · subst hc
      simp only [splitFirstEq, if_pos, Option.some.injEq, Prod.mk.injEq] at h
      rw [← h.1, ← h.2]
      simp
    · simp only [splitFirstEq, hc, if_false] at h
      rcases hr : splitFirstEq rest with _ | ⟨k', v'⟩
      · rw [hr] at h
        simp at h
      · rw [hr] at h
        simp only [Option.some.injEq, Prod.mk.injEq] at h
        obtain ⟨hk, hv⟩ := h
        obtain ⟨hs, hmem⟩ := ih k' v' hr
        constructor
        · rw [← hk, ← hv, hs]
          simp
        · rw [← hk]
          intro hin
          rcases List.mem_cons.mp hin with h1 | h1
          · exact hc h1.symm
          · exact hmem h1

theorem serPair_no_comma (e : Str × Str) (h : WFEntry e) : ',' ∉ serPair e := by
  obtain ⟨h1, h2, h3, h4, h5⟩ := h
  intro hmem
  unfold serPair at hmem
  rcases List.mem_append.mp hmem with hm | hm
  · exact h2 hm
  · rcases List.mem_cons.mp hm with hm | hm
    · exact absurd hm.symm (by decide)
    · exact h3 hm

theorem serPair_ne_nil (e : Str × Str) : serPair e ≠ [] := by
  unfold serPair
  intro h
  exact List.append_ne_nil_of_right_ne_nil e.1 (List.cons_ne_nil _ _) h

theorem head?_serPair (e : Str × Str) (c : Char) (h : (serPair e).head? = some c) :
    e.1.head? = some c ∨ c = '=' := by
  unfold serPair at h
  rw [List.head?_append] at h
  rcases he : e.1.head? with _ | c'
  · rw [he] at h
    simp at h
    right
    exact h.symm
  · rw [he] at h
    simp at h
    left
    rw [h]

theorem getLast?_serPair (e : Str × Str) (c : Char)
    (h : (serPair e).getLast? = some c) : e.2.getLast? = some c ∨ c = '=' := by
  unfold serPair at h
  rw [List.getLast?_append] at h
  rcases he : e.2.getLast? with _ | c'
  · rw [List.getLast?_cons, he] at h
    simp at h
    right
    exact h.symm
  · rw [List.getLast?_cons, he] at h
    simp at h
    left
    rw [h]

theorem trimSpace_serPair (e : Str × Str) (h : WFEntry e) :
    trimSpace (serPair e) = serPair e := by
  obtain ⟨h1, h2, h3, h4, h5⟩ := h
  apply trimSpace_eq_self
  · intro c hc
    rcases head?_serPair e c hc with hm | hm
    · exact h4 c hm
    · rw [hm]; decide
  · intro c hc
    rcases getLast?_serPair e c hc with hm | hm
    · exact h5 c hm
    · rw [hm]; decide

theorem splitFirstEq_serPair (e : Str × Str) (h : '=' ∉ e.1) :
    splitFirstEq (serPair e) = some e := by
  unfold serPair
  rw [splitFirstEq_append e.1 e.2 h]

theorem parseLabel_serPair (m : AnnotationsMap) (e : Str × Str) (h : WFEntry e) :
    parseLabel m (serPair e) = insertS m e.1 e.2 := by
  unfold parseLabel
  rw [trimSpace_serPair e h, splitFirstEq_serPair e h.1]

theorem mem_insertS {α : Type} (m : List (Str × α)) (k : Str) (v : α)
    (e : Str × α) (h : e ∈ insertS m k v) : e = (k, v) ∨ e ∈ m := by
  induction m with
  | nil =>
    simp only [insertS, List.mem_singleton] at h
    left
    exact h
  | cons e' rest ih =>
    obtain ⟨ke, ve⟩ := e'
    by_cases he : ke = k
    · rw [insertS_cons_pos rest ke k ve v he] at h
      rcases List.mem_cons.mp h with h1 | h1
      · left; exact h1
      · right; exact List.mem_cons_of_mem _ h1
    · rw [insertS_cons_neg rest ke k ve v he] at h
      rcases List.mem_cons.mp h with h1 | h1
      · right
        rw [h1]
        exact List.mem_cons_self _ _
      · rcases ih h1 with h2 | h2
        · left; exact h2
        · right; exact List.mem_cons_of_mem _ h2

theorem WFEntry_of_parse (label : Str) (hc : ',' ∉ label) (k v : Str)
    (h : splitFirstEq (trimSpace label) = some (k, v)) : WFEntry (k, v) := by
  obtain ⟨heq, hkeq⟩ := splitFirstEq_eq_some _ k v h
  have hmemtrim : ∀ c, c ∈ trimSpace label → c ≠ ',' := by
    intro c hmem hcc
    exact hc (hcc ▸ mem_trimSpace label c hmem)
  refine ⟨hkeq, ?_, ?_, ?_, ?_⟩
  · intro hmem
    exact hmemtrim ',' (heq ▸ List.mem_append.mpr (Or.inl hmem)) rfl
  · intro hmem
    exact hmemtrim ','
      (heq ▸ List.mem_append.mpr (Or.inr (List.mem_cons_of_mem _ hmem))) rfl
  · intro c hhead
    apply trimSpace_head label c
    rw [heq, List.head?_append, hhead]
    simp
  · intro c hlast
    apply trimSpace_getLast label c
    rw [heq]
    rcases hv : v with _ | ⟨c', rest⟩
    · rw [hv] at hlast
      simp at hlast
    · rw [← hv]
      rw [List.getLast?_append_of_ne_nil k (List.cons_ne_nil '=' v)]
      rw [hv, List.getLast?_cons_cons, ← hv]
      exact hlast

theorem parseLabel_WF (m : AnnotationsMap) (label : Str)
    (hm : ∀ e ∈ m, WFEntry e) (hc : ',' ∉ label) :
    ∀ e ∈ parseLabel m label, WFEntry e := by
  intro e he
  unfold parseLabel at he
  rcases hs : splitFirstEq (trimSpace label) with _ | ⟨k, v⟩
  · rw [hs] at he
    exact hm e he
  · rw [hs] at he
    rcases mem_insertS m k v e he with h1 | h1
    · rw [h1]
      exact WFEntry_of_parse label hc k v hs
    · exact hm e h1

theorem parseLabel_keys_nodup (m : AnnotationsMap) (label : Str)
    (hm : (m.map Prod.fst).Nodup) : ((parseLabel m label).map Prod.fst).Nodup := by
  unfold parseLabel
  rcases hs : splitFirstEq (trimSpace label) with _ | ⟨k, v⟩
  · exact hm
  · exact keys_insertS_nodup m k v hm

theorem parseLabels_foldl_WF (labels : List Str) (m : AnnotationsMap)
    (hm : ∀ e ∈ m, WFEntry e) (hc : ∀ p ∈ labels, ',' ∉ p) :
    ∀ e ∈ labels.foldl parseLabel m, WFEntry e := by
  induction labels generalizing m with
  | nil =>
    intro e he
    exact hm e he
  | cons p rest ih =>
    intro e he
    simp only [List.foldl_cons] at he
    exact ih (parseLabel m p)
      (parseLabel_WF m p hm (hc p (List.mem_cons_self p rest)))
      (fun q hq => hc q (List.mem_cons_of_mem p hq)) e he

theorem parseLabels_foldl_nodup (labels : List Str) (m : AnnotationsMap)
    (hm : (m.map Prod.fst).Nodup) :
    ((labels.foldl parseLabel m).map Prod.fst).Nodup := by
  induction labels generalizing m with
  | nil => exact hm
  | cons p rest ih =>
    simp only [List.foldl_cons]
    exact ih _ (parseLabel_keys_nodup m p hm)

theorem parseLabels_WF (s : Str) : ∀ e ∈ parseLabels s, WFEntry e :=
  parseLabels_foldl_WF (splitComma s) [] (by simp) (mem_splitComma_no_comma s)

theorem parseLabels_keys_nodup (s : Str) :
    ((parseLabels s).map Prod.fst).Nodup :=
  parseLabels_foldl_nodup (splitComma s) [] (by simp)

theorem strLe_trans (a b c : Str) (h1 : strLe a b = true) (h2 : strLe b c = true) :
    strLe a c = true := by
  simp only [strLe, decide_eq_true_eq] at h1 h2 ⊢
  exact le_trans h1 h2

theorem strLe_total (a b : Str) : (strLe a b || strLe b a) = true := by
  simp only [strLe, Bool.or_eq_true, decide_eq_true_eq]
  exact le_total a b

theorem mergeSort_strLe_sorted (l : List Str) :
    (l.mergeSort strLe).Sorted (fun a b : Str => a ≤ b) := by
  have h := List.sorted_mergeSort strLe_trans strLe_total l
  unfold List.Sorted
  refine h.imp ?_
  intro a b hab
  simpa [strLe, decide_eq_true_eq] using hab

theorem mergeSort_eq_of_perm (l1 l2 : List Str) (h : l1.Perm l2) :
    l1.mergeSort strLe = l2.mergeSort strLe := by
  refine List.eq_of_perm_of_sorted ?_ (mergeSort_strLe_sorted l1) (mergeSort_strLe_sorted l2)
  exact ((l1.mergeSort_perm strLe).trans h).trans (l2.mergeSort_perm strLe).symm

theorem parseEntry_serPair (e : Str × Str) (h : WFEntry e) :
    parseEntry (serPair e) = e := by
  unfold parseEntry
  rw [trimSpace_serPair e h, splitFirstEq_serPair e h.1]
  rfl

theorem joinComma_ne_nil (ps : List Str) (hne : ps ≠ [])
    (h : ∀ p ∈ ps, p ≠ []) : joinComma ps ≠ [] := by
  rcases ps with _ | ⟨p, rest⟩
  · exact absurd rfl hne
  · rcases rest with _ | ⟨q, qs⟩
    · exact h p (List.mem_cons_self p [])
    · simp only [joinComma]
      intro hcontra
      rcases List.append_eq_nil.mp hcontra with ⟨_, h2⟩
      exact List.cons_ne_nil _ _ h2

theorem foldl_parseLabel_serialized (labels : List Str) (m0 : AnnotationsMap)
    (h : ∀ q ∈ labels, ∃ e, WFEntry e ∧ q = serPair e) :
    labels.foldl parseLabel m0 =
      (labels.map parseEntry).foldl (fun m e => insertS m e.1 e.2) m0 := by
  induction labels generalizing m0 with
  | nil => simp
  | cons q rest ih =>
    obtain ⟨e, hWF, hq⟩ := h q (List.mem_cons_self q rest)
    have h1 : parseLabel m0 q = insertS m0 (parseEntry q).1 (parseEntry q).2 := by
      rw [hq, parseLabel_serPair m0 e hWF, parseEntry_serPair e hWF]
    simp only [List.foldl_cons, List.map_cons]
    rw [h1, ih _ (fun p hp => h p (List.mem_cons_of_mem q hp))]

theorem parseLabels_joinComma_serialized (es : List (Str × Str))
    (hWF : ∀ e ∈ es, WFEntry e) (hnd : (es.map Prod.fst).Nodup) (hne : es ≠ []) :
    parseLabels (joinComma (es.map serPair)) = es := by
  unfold parseLabels
  rw [splitComma_joinComma (es.map serPair) (by simpa using hne)
    (fun p hp => by
      rcases List.mem_map.mp hp with ⟨e, he, hpe⟩
      exact hpe ▸ serPair_no_comma e (hWF e he))]
  rw [foldl_parseLabel_serialized (es.map serPair) []
    (fun q hq => by
      rcases List.mem_map.mp hq with ⟨e, he, hqe⟩
      exact ⟨e, hWF e he, hqe.symm⟩)]
  have hmapeq : (es.map serPair).map parseEntry = es := by
    rw [List.map_map]
    refine List.map_congr_left ?_ |>.trans es.map_id
    intro e he
    exact parseEntry_serPair e (hWF e he)
  rw [hmapeq]
  exact foldl_insertS_of_nodup es hnd

theorem eraseKey_eq_filter {α : Type} (m : List (Str × α)) (k : Str) :
    eraseKey m k = m.filter (fun e => !(decide (e.1 = k))) := by
  induction m with
  | nil => simp [eraseKey]
  | cons e rest ih =>
    obtain ⟨ke, ve⟩ := e
    by_cases he : ke = k
    · simp [eraseKey, he, List.filter_cons, ih]
    · simp [eraseKey, he, List.filter_cons, ih]

theorem eraseKey_perm {α : Type} (m1 m2 : List (Str × α)) (k : Str)
    (h : m1.Perm m2) : (eraseKey m1 k).Perm (eraseKey m2 k) := by
  rw [eraseKey_eq_filter, eraseKey_eq_filter]
  exact h.filter _

theorem eraseKey_insertS {α : Type} (m : List (Str × α)) (k : Str) (v : α) :
    eraseKey (insertS m k v) k = eraseKey m k := by
  induction m with
  | nil => simp [insertS, eraseKey]
  | cons e rest ih =>
    obtain ⟨ke, ve⟩ := e
    by_cases he : ke = k
    · rw [insertS_cons_pos rest ke k ve v he]
      simp [eraseKey, he]
    · rw [insertS_cons_neg rest ke k ve v he]
      simp [eraseKey, he, ih]

theorem mem_insertS_self {α : Type} (m : List (Str × α)) (k : Str) (v : α) :
    (k, v) ∈ insertS m k v := by
  induction m with
  | nil => simp [insertS]
  | cons e rest ih =>
    obtain ⟨ke, ve⟩ := e
    by_cases he : ke = k
    · rw [insertS_cons_pos rest ke k ve v he]
      exact List.mem_cons_self _ _
    · rw [insertS_cons_neg rest ke k ve v he]
      exact List.mem_cons_of_mem _ ih

theorem setCapacityAnnotations_unfold (a : AnnotationsMap) (info : InstanceType) :
    setCapacityAnnotations a info =
      insertS (numAnnotations a info) labelsKey
        (labelsValue (numAnnotations a info) info) := rfl

theorem lookupS_insertS_ne {α : Type} (m : List (Str × α)) (k k' : Str) (v : α)
    (h : k' ≠ k) : lookupS (insertS m k v) k' = lookupS m k' := by
  have h' : ¬k = k' := fun hh => h hh.symm
  induction m with
  | nil => simp [insertS, lookupS, h']
  | cons e rest ih =>
    obtain ⟨ke, ve⟩ := e
    by_cases he : ke = k
    · subst he
      simp [insertS, lookupS, h']
    · simp [insertS, lookupS, he, ih]

theorem cpuKey_ne_labelsKey : cpuKey ≠ labelsKey := by decide
theorem memoryKey_ne_labelsKey : memoryKey ≠ labelsKey := by decide
theorem gpuKey_ne_labelsKey : gpuKey ≠ labelsKey := by decide
theorem memoryKey_ne_cpuKey : memoryKey ≠ cpuKey := by decide
theorem gpuKey_ne_cpuKey : gpuKey ≠ cpuKey := by decide
theorem gpuKey_ne_memoryKey : gpuKey ≠ memoryKey := by decide

theorem lookupS_numAnnotations_labelsKey (a : AnnotationsMap) (info : InstanceType) :
    lookupS (numAnnotations a info) labelsKey = lookupS a labelsKey := by
  unfold numAnnotations
  rw [lookupS_insertS_ne _ _ _ _ (fun h => gpuKey_ne_labelsKey h.symm),
    lookupS_insertS_ne _ _ _ _ (fun h => memoryKey_ne_labelsKey h.symm),
    lookupS_insertS_ne _ _ _ _ (fun h => cpuKey_ne_labelsKey h.symm)]

theorem lookupS_numAnnotations_other (a : AnnotationsMap) (info : InstanceType)
    (k : Str) (h1 : k ≠ cpuKey) (h2 : k ≠ memoryKey) (h3 : k ≠ gpuKey) :
    lookupS (numAnnotations a info) k = lookupS a k := by
  unfold numAnnotations
  rw [lookupS_insertS_ne _ _ _ _ h3, lookupS_insertS_ne _ _ _ _ h2,
    lookupS_insertS_ne _ _ _ _ h1]

theorem WFEntry_archEntry (na : NormalizedArch) :
    WFEntry (archLabelKey, na.toStr) := by
  cases na with
  | amd64 =>
    refine ⟨by decide, by decide, by decide, ?_, ?_⟩
    · intro c hc
      simp [archLabelKey, str] at hc
      subst hc
      decide
    · intro c hc
      simp [NormalizedArch.toStr, str] at hc
      subst hc
      decide
  | arm64 =>
    refine ⟨by decide, by decide, by decide, ?_, ?_⟩
    · intro c hc
      simp [archLabelKey, str] at hc
      subst hc
      decide
    · intro c hc
      simp [NormalizedArch.toStr, str] at hc
      subst hc
      decide

theorem insertS_ne_nil {α : Type} (m : List (Str × α)) (k : Str) (v : α) :
    insertS m k v ≠ [] := by
  cases m with
  | nil => simp [insertS]
  | cons e rest =>
    obtain ⟨ke, ve⟩ := e
    by_cases he : ke = k
    · rw [insertS_cons_pos rest ke k ve v he]
      simp
    · rw [insertS_cons_neg rest ke k ve v he]
      simp

theorem labelsMapOf_WF (m : AnnotationsMap) : ∀ e ∈ labelsMapOf m, WFEntry e := by
  unfold labelsMapOf
  rcases lookupS m labelsKey with _ | lv
  · simp
  · dsimp only
    by_cases hlv : lv ≠ []
    · rw [if_pos hlv]
      exact parseLabels_WF lv
    · rw [if_neg hlv]
      simp

theorem labelsMapOf_keys_nodup (m : AnnotationsMap) :
    ((labelsMapOf m).map Prod.fst).Nodup := by
  unfold labelsMapOf
  rcases lookupS m labelsKey with _ | lv
  · simp
  · dsimp only
    by_cases hlv : lv ≠ []
    · rw [if_pos hlv]
      exact parseLabels_keys_nodup lv
    · rw [if_neg hlv]
      simp

/-- The labels map built in the annotation step: entries are well-formed. -/
theorem archMap_WF (a3 : AnnotationsMap) (na : NormalizedArch) :
    ∀ e ∈ insertS (labelsMapOf a3) archLabelKey na.toStr, WFEntry e := by
  intro e he
  rcases mem_insertS _ _ _ e he with h1 | h1
  · rw [h1]
    exact WFEntry_archEntry na
  · exact labelsMapOf_WF a3 e h1

theorem labelsValue_eq_splitComma (a3 : AnnotationsMap) (info : InstanceType) :
    splitComma (labelsValue a3 info) =
      ((insertS (labelsMapOf a3) archLabelKey
        info.cpuArchitecture.toStr).map serPair).mergeSort strLe := by
  unfold labelsValue
  set m1 := insertS (labelsMapOf a3) archLabelKey info.cpuArchitecture.toStr with hm1
  apply splitComma_joinComma
  · intro hnil
    have hlen := ((m1.map serPair).mergeSort_perm strLe).length_eq
    rw [hnil] at hlen
    simp only [List.length_nil] at hlen
    have : m1 = [] := by
      rcases m1 with _ | _
      · rfl
      · simp at hlen
    exact insertS_ne_nil _ _ _ this
  · intro p hp
    rcases List.mem_map.mp (List.mem_mergeSort.mp hp) with ⟨e, he, hpe⟩
    exact hpe ▸ serPair_no_comma e (archMap_WF a3 info.cpuArchitecture e he)

theorem archMap_sorted_ne_nil (a3 : AnnotationsMap) (info : InstanceType) :
    ((insertS (labelsMapOf a3) archLabelKey
      info.cpuArchitecture.toStr).map serPair).mergeSort strLe ≠ [] := by
  set m1 := insertS (labelsMapOf a3) archLabelKey info.cpuArchitecture.toStr with hm1
  intro hnil
  have hlen := ((m1.map serPair).mergeSort_perm strLe).length_eq
  rw [hnil] at hlen
  simp only [List.length_nil] at hlen
  have hm1nil : m1 = [] := by
    rcases hc : m1 with _ | _
    · rfl
    · rw [hc] at hlen
      simp at hlen
  exact insertS_ne_nil _ _ _ hm1nil

theorem labelsValue_ne_nil (a3 : AnnotationsMap) (info : InstanceType) :
    labelsValue a3 info ≠ [] := by
  unfold labelsValue
  apply joinComma_ne_nil
  · exact archMap_sorted_ne_nil a3 info
  · intro p hp
    rcases List.mem_map.mp (List.mem_mergeSort.mp hp) with ⟨e, _, hpe⟩
    exact hpe ▸ serPair_ne_nil e

theorem labelsMapOf_of_lookup_some (a3 : AnnotationsMap) (lv : Str)
    (h : lookupS a3 labelsKey = some lv) (hne : lv ≠ []) :
    labelsMapOf a3 = parseLabels lv := by
  unfold labelsMapOf
  rw [h]
  dsimp only
  rw [if_pos hne]

theorem labelsMapOf_of_lookup_nil (a3 : AnnotationsMap)
    (h : lookupS a3 labelsKey = some []) : labelsMapOf a3 = [] := by
  unfold labelsMapOf
  rw [h]
  simp

/-- C1: for every MachineDeployment whose labels annotation
(`capacity.cluster-autoscaler.kubernetes.io/labels`) is a comma-separated
list of well-formed `key=value` pairs (entries `es`, distinct keys), the
annotation-writing step of `reconcile` overwrites only the
`kubernetes.io/arch` pair: the new labels value splits into exactly the
serialized architecture pair plus the original non-architecture pairs
byte-for-byte, up to reordering; and every annotation key other than the
four owned keys (vCPU, memoryMb, GPU, labels) is left unchanged. -/
theorem reconcile_labels_merge_frame (a : AnnotationsMap) (info : InstanceType) (es : List (Str × Str))
    (hWF : ∀ e ∈ es, WFEntry e)
    (hnd : (es.map Prod.fst).Nodup)
    (hlv : lookupS a labelsKey = some (joinComma (es.map serPair))) :
    (∃ lv', lookupS (setCapacityAnnotations a info) labelsKey = some lv' ∧
      (splitComma lv').Perm
        (serPair (archLabelKey, info.cpuArchitecture.toStr) ::
          (eraseKey es archLabelKey).map serPair)) ∧
    (∀ k, k ≠ cpuKey → k ≠ memoryKey → k ≠ gpuKey → k ≠ labelsKey →
      lookupS (setCapacityAnnotations a info) k = lookupS a k) := by
  rw [setCapacityAnnotations_unfold]
  constructor
  · refine ⟨labelsValue (numAnnotations a info) info, lookupS_insertS_self _ _ _, ?_⟩
    rw [labelsValue_eq_splitComma]
    have ha3 : lookupS (numAnnotations a info) labelsKey =
        some (joinComma (es.map serPair)) := by
      rw [lookupS_numAnnotations_labelsKey]
      exact hlv
    by_cases hesnil : es = []
    · subst hesnil
      have hb1 : labelsMapOf (numAnnotations a info) = [] :=
        labelsMapOf_of_lookup_nil _ ha3
      rw [hb1]
      have hins : insertS ([] : AnnotationsMap) archLabelKey info.cpuArchitecture.toStr =
          [(archLabelKey, info.cpuArchitecture.toStr)] := rfl
      rw [hins]
      simp only [List.map_cons, List.map_nil]
      rw [List.mergeSort_singleton]
      simp [eraseKey]
    · have hesne : es ≠ [] := hesnil
      have hlvne : joinComma (es.map serPair) ≠ [] := by
        apply joinComma_ne_nil
        · simpa using hesne
        · intro p hp
          rcases List.mem_map.mp hp with ⟨e, _, hpe⟩
          exact hpe ▸ serPair_ne_nil e
      have hb1 : labelsMapOf (numAnnotations a info) = es := by
        rw [labelsMapOf_of_lookup_some _ _ ha3 hlvne]
        exact parseLabels_joinComma_serialized es hWF hnd hesne
      rw [hb1]
      set v := info.cpuArchitecture.toStr with hv
      have hperm1 : (insertS es archLabelKey v).Perm
          ((archLabelKey, v) :: eraseKey es archLabelKey) :=
        insertS_perm_cons_eraseKey es archLabelKey v hnd
      have hsortperm := ((insertS es archLabelKey v).map serPair).mergeSort_perm strLe
      refine hsortperm.trans ?_
      have := hperm1.map serPair
      simpa [serPair] using this
  · intro k h1 h2 h3 h4
    rw [lookupS_insertS_ne _ _ _ _ h4]
    exact lookupS_numAnnotations_other a info k h1 h2 h3

theorem lookupS_numAnnotations_cpuKey (a : AnnotationsMap) (info : InstanceType) :
    lookupS (numAnnotations a info) cpuKey = some (formatInt info.vcpu) := by
  unfold numAnnotations
  rw [lookupS_insertS_ne _ _ _ _ (fun h => gpuKey_ne_cpuKey h.symm),
    lookupS_insertS_ne _ _ _ _ (fun h => memoryKey_ne_cpuKey h.symm),
    lookupS_insertS_self]

theorem lookupS_numAnnotations_memoryKey (a : AnnotationsMap) (info : InstanceType) :
    lookupS (numAnnotations a info) memoryKey = some (formatInt info.memoryMb) := by
  unfold numAnnotations
  rw [lookupS_insertS_ne _ _ _ _ (fun h => gpuKey_ne_memoryKey h.symm),
    lookupS_insertS_self]

theorem lookupS_numAnnotations_gpuKey (a : AnnotationsMap) (info : InstanceType) :
    lookupS (numAnnotations a info) gpuKey = some (formatInt info.gpu) := by
  unfold numAnnotations
  rw [lookupS_insertS_self]

theorem numAnnotations_of_lookups (A : AnnotationsMap) (info : InstanceType)
    (hc : lookupS A cpuKey = some (formatInt info.vcpu))
    (hm : lookupS A memoryKey = some (formatInt info.memoryMb))
    (hg : lookupS A gpuKey = some (formatInt info.gpu)) :
    numAnnotations A info = A := by
  unfold numAnnotations
  rw [insertS_of_lookupS_eq A cpuKey _ hc,
    insertS_of_lookupS_eq A memoryKey _ hm,
    insertS_of_lookupS_eq A gpuKey _ hg]

/-- C2: the annotation-writing step of `reconcile` is idempotent and
deterministic — it is a pure function of the annotation map and descriptor,
the labels list is re-serialized in sorted order and the numeric annotations
are base-10 renderings of the descriptor, so re-running it on its own output
reproduces that output byte for byte. -/
theorem annotation_write_idempotent (a : AnnotationsMap) (info : InstanceType) :
    setCapacityAnnotations (setCapacityAnnotations a info) info =
      setCapacityAnnotations a info := by
  set a3 := numAnnotations a info with ha3
  set V := labelsValue a3 info with hV
  have hA : setCapacityAnnotations a info = insertS a3 labelsKey V :=
    setCapacityAnnotations_unfold a info
  set A := insertS a3 labelsKey V with hAdef
  rw [hA]
  -- the three numeric writes of the second pass leave A unchanged
  have hlookc : lookupS A cpuKey = some (formatInt info.vcpu) := by
    rw [hAdef, lookupS_insertS_ne _ _ _ _ cpuKey_ne_labelsKey, ha3,
      lookupS_numAnnotations_cpuKey]
  have hlookm : lookupS A memoryKey = some (formatInt info.memoryMb) := by
    rw [hAdef, lookupS_insertS_ne _ _ _ _ memoryKey_ne_labelsKey, ha3,
      lookupS_numAnnotations_memoryKey]
  have hlookg : lookupS A gpuKey = some (formatInt info.gpu) := by
    rw [hAdef, lookupS_insertS_ne _ _ _ _ gpuKey_ne_labelsKey, ha3,
      lookupS_numAnnotations_gpuKey]
  have hnum : numAnnotations A info = A :=
    numAnnotations_of_lookups A info hlookc hlookm hlookg
  have hlookL : lookupS A labelsKey = some V := lookupS_insertS_self a3 labelsKey V
  -- the labels value computed by the second pass equals V
  set b1 := labelsMapOf a3 with hb1
  set v := info.cpuArchitecture.toStr with hv
  set m1 := insertS b1 archLabelKey v with hm1
  have hVdef : V = joinComma ((m1.map serPair).mergeSort strLe) := rfl
  have hb1nd : (b1.map Prod.fst).Nodup := labelsMapOf_keys_nodup a3
  have hm1WF : ∀ e ∈ m1, WFEntry e := archMap_WF a3 info.cpuArchitecture
  have hm1nd : (m1.map Prod.fst).Nodup := keys_insertS_nodup b1 archLabelKey v hb1nd
  have hVne : V ≠ [] := labelsValue_ne_nil a3 info
  have hsplitV : splitComma V = (m1.map serPair).mergeSort strLe :=
    labelsValue_eq_splitComma a3 info
  have hsortmem : ∀ q ∈ (m1.map serPair).mergeSort strLe,
      ∃ e, WFEntry e ∧ q = serPair e := by
    intro q hq
    rcases List.mem_map.mp (List.mem_mergeSort.mp hq) with ⟨e, he, hqe⟩
    exact ⟨e, hm1WF e he, hqe.symm⟩
  set m2 := ((m1.map serPair).mergeSort strLe).map parseEntry with hm2
  have hm2perm : m2.Perm m1 := by
    have h1 : ((m1.map serPair).mergeSort strLe).Perm (m1.map serPair) :=
      (m1.map serPair).mergeSort_perm strLe
    have h2 := h1.map parseEntry
    rw [← hm2, List.map_map] at h2
    refine h2.trans ?_
    have hcongr : m1.map (parseEntry ∘ serPair) = m1.map id := by
      apply List.map_congr_left
      intro e he
      exact parseEntry_serPair e (hm1WF e he)
    rw [hcongr, List.map_id]
  have hm2nd : (m2.map Prod.fst).Nodup :=
    ((hm2perm.map Prod.fst).symm).nodup hm1nd
  have hparseV : parseLabels V = m2 := by
    unfold parseLabels
    rw [hsplitV]
    rw [foldl_parseLabel_serialized _ [] hsortmem]
    exact foldl_insertS_of_nodup m2 hm2nd
  have hlabelsA : labelsMapOf A = m2 := by
    rw [labelsMapOf_of_lookup_some A V hlookL hVne, hparseV]
  -- the re-inserted architecture entry restores a permutation of m1
  have hm2' : (insertS m2 archLabelKey v).Perm m1 := by
    have h1 : (insertS m2 archLabelKey v).Perm
        ((archLabelKey, v) :: eraseKey m2 archLabelKey) :=
      insertS_perm_cons_eraseKey m2 archLabelKey v hm2nd
    have h2 : (eraseKey m2 archLabelKey).Perm (eraseKey m1 archLabelKey) :=
      eraseKey_perm m2 m1 archLabelKey hm2perm
    have h3 : eraseKey m1 archLabelKey = eraseKey b1 archLabelKey := by
      rw [hm1]
      exact eraseKey_insertS b1 archLabelKey v
    have h4 : m1.Perm ((archLabelKey, v) :: eraseKey b1 archLabelKey) := by
      rw [hm1]
      exact insertS_perm_cons_eraseKey b1 archLabelKey v hb1nd
    refine h1.trans ?_
    refine (h2.cons (archLabelKey, v)).trans ?_
    rw [h3]
    exact h4.symm
  have hV2 : labelsValue A info = V := by
    unfold labelsValue
    rw [hlabelsA, ← hv]
    rw [mergeSort_eq_of_perm _ _ ((hm2'.map serPair))]
    exact hVdef.symm
  calc setCapacityAnnotations A info
      = insertS (numAnnotations A info) labelsKey (labelsValue (numAnnotations A info) info) :=
        setCapacityAnnotations_unfold A info
    _ = insertS A labelsKey V := by rw [hnum, hV2]
    _ = A := insertS_of_lookupS_eq A labelsKey V hlookL

/-! ## Claim theorems -/

/-- C6: architecture normalization is total over strings — it is a total
function into the `NormalizedArch` enum, never an error — and it maps
`"x86_64"` to `amd64`, `"arm64"` to `arm64`, and every other input
(empty, unrecognized, or any third value) to `amd64`. -/
theorem normalizeArchitecture_spec (s : Str)
    (h1 : s ≠ str "x86_64") (h2 : s ≠ str "arm64") :
    normalizeArchitecture (str "x86_64") = NormalizedArch.amd64 ∧
    normalizeArchitecture (str "arm64") = NormalizedArch.arm64 ∧
    normalizeArchitecture s = NormalizedArch.amd64 := by
  refine ⟨by decide, by decide, ?_⟩
  unfold normalizeArchitecture
  rw [if_neg h1, if_neg h2]

theorem normalizeArchitecture_spec_witness :
    str "unknown" ≠ str "x86_64" ∧ str "unknown" ≠ str "arm64" ∧
    (normalizeArchitecture (str "x86_64") = NormalizedArch.amd64 ∧
      normalizeArchitecture (str "arm64") = NormalizedArch.arm64 ∧
      normalizeArchitecture (str "unknown") = NormalizedArch.amd64) :=
  ⟨by decide, by decide,
    normalizeArchitecture_spec (str "unknown") (by decide) (by decide)⟩

/-- C7: region validation distinguishes its two failure cases — a name
matching no entry of the `DescribeRegions` output fails with the
"not a valid region" error, a matching entry whose opt-in status is
`"not-opted-in"` fails with the distinct "not opted in" error (the two
messages are never equal), and any other matching entry succeeds. -/
theorem validateRegion_distinguishes (out : DescribeRegionsOutput) (region : Str) :
    (findRegion out region = none →
      validateRegion out region = .error (notValidRegionMsg region)) ∧
    (∀ rd, findRegion out region = some rd →
      (rd.optInStatus = str "not-opted-in" →
        validateRegion out region = .error (notOptedInMsg region)) ∧
      (rd.optInStatus ≠ str "not-opted-in" →
        validateRegion out region = .ok rd)) ∧
    notValidRegionMsg region ≠ notOptedInMsg region := by
  refine ⟨?_, ?_, ?_⟩
  · intro h
    unfold validateRegion
    rw [h]
  · intro rd h
    constructor
    · intro hs
      unfold validateRegion
      rw [h]
      dsimp only
      rw [if_pos hs]
    · intro hs
      unfold validateRegion
      rw [h]
      dsimp only
      rw [if_neg hs]
  · intro h
    have hlen := congrArg List.length h
    simp only [notValidRegionMsg, notOptedInMsg, str, List.length_append,
      List.length_cons, List.length_nil] at hlen
    omega

theorem validateRegion_distinguishes_witness :
    validateRegion [some ⟨str "us-west-2", str "opted-in"⟩] (str "us-east-1") =
      .error (notValidRegionMsg (str "us-east-1")) ∧
    validateRegion [some ⟨str "ap-east-1", str "not-opted-in"⟩] (str "ap-east-1") =
      .error (notOptedInMsg (str "ap-east-1")) ∧
    validateRegion [some ⟨str "us-west-2", str "opt-in-not-required"⟩] (str "us-west-2") =
      .ok ⟨str "us-west-2", str "opt-in-not-required"⟩ :=
  ⟨(validateRegion_distinguishes _ _).1 (by decide),
    ((validateRegion_distinguishes _ _).2.1
      (⟨str "ap-east-1", str "not-opted-in"⟩ : EC2Region) (by decide)).1 (by decide),
    ((validateRegion_distinguishes _ _).2.1
      (⟨str "us-west-2", str "opt-in-not-required"⟩ : EC2Region) (by decide)).2
      (by decide)⟩

/-- C8: session construction selects IRSA authentication exactly when both
environment signals (`AWS_ROLE_ARN` and `AWS_WEB_IDENTITY_TOKEN_FILE`) are
non-empty; in every other case, a half-configured pair included, it falls
through to the ambient credential chain and still returns a session bound
to the requested region. -/
theorem newAWSSession_irsa_selection (roleARN tokenFile region : Str) :
    ((newAWSSession roleARN tokenFile region).mode = AuthMode.irsa ↔
      (roleARN ≠ [] ∧ tokenFile ≠ [])) ∧
    (newAWSSession roleARN tokenFile region).region = region := by
  unfold newAWSSession
  by_cases h : roleARN ≠ [] ∧ tokenFile ≠ []
  · rw [if_pos h]
    simp [h]
  · rw [if_neg h]
    exact ⟨Iff.intro (fun hmode => nomatch hmode) (fun hcfg => absurd hcfg h), rfl⟩

theorem newAWSSession_irsa_selection_witness :
    (newAWSSession (str "arn:aws:iam::123456789012:role/test-role")
      (str "/var/run/secrets/eks.amazonaws.com/serviceaccount/token")
      (str "us-east-1")).mode = AuthMode.irsa ∧
    (newAWSSession (str "arn:aws:iam::123456789012:role/test-role") []
      (str "us-east-1")).mode = AuthMode.ambientChain ∧
    (newAWSSession (str "arn:aws:iam::123456789012:role/test-role") []
      (str "us-east-1")).region = str "us-east-1" := by
  refine ⟨(newAWSSession_irsa_selection _ _ _).1.mpr ⟨by decide, by decide⟩, ?_,
    (newAWSSession_irsa_selection _ _ _).2⟩
  have h := (newAWSSession_irsa_selection
    (str "arn:aws:iam::123456789012:role/test-role") [] (str "us-east-1")).1
  cases hm : (newAWSSession (str "arn:aws:iam::123456789012:role/test-role") []
      (str "us-east-1")).mode
  · exact absurd (h.mp hm).2 (by decide)
  · rfl

/-- C9 counterexample: with IRSA configured, `newAWSSession` emits a log
line that carries the role identifier (the full role ARN) as its suffix, so
the log output does contain the identity value, refuting the claim that it
never does. -/
theorem newAWSSession_logs_role_arn :
    (newAWSSession (str "arn:aws:iam::123456789012:role/my-role")
      (str "/var/run/secrets/eks.amazonaws.com/serviceaccount/token")
      (str "us-east-1")).log =
      [irsaLogLead ++ str "arn:aws:iam::123456789012:role/my-role"] ∧
    str "arn:aws:iam::123456789012:role/my-role" ≠ [] ∧
    str "arn:aws:iam::123456789012:role/my-role" <:+
      (irsaLogLead ++ str "arn:aws:iam::123456789012:role/my-role") := by
  refine ⟨by decide, by decide, List.suffix_append _ _⟩

/-- C9 (amended): the log output of session construction is exactly one
line stating which authentication mode was selected; in IRSA mode that line
embeds the role identifier, and the token value is never interpolated into
any log line. -/
theorem newAWSSession_log_content (roleARN tokenFile region : Str) :
    (newAWSSession roleARN tokenFile region).log =
      if roleARN ≠ [] ∧ tokenFile ≠ [] then [irsaLogLead ++ roleARN]
      else [ambientChainLogMsg] := by
  unfold newAWSSession
  by_cases h : roleARN ≠ [] ∧ tokenFile ≠ []
  · rw [if_pos h, if_pos h]
  · rw [if_neg h, if_neg h]

/-- C5: region resolution is an ordered chain in which the first success
wins — a successful cluster-chain lookup (deployment → Cluster → AWSCluster)
always yields a non-empty region and is returned; each chain failure
(missing reference, not-found fetch, empty region field), or an unset
cluster name, does not raise but falls through to the fallback annotation
`capa.infrastructure.cluster.x-k8s.io/region`, whose present non-empty
value is returned; when neither yields a non-empty region, resolution fails
with the region-undeterminable error. -/
theorem resolveRegion_ordered_chain (store : KubeStore) (md : MachineDeployment) :
    (∀ r, getRegionFromAWSCluster store md = .ok r → r ≠ []) ∧
    (∀ r, md.clusterName ≠ [] → getRegionFromAWSCluster store md = .ok r →
      ResolveRegion store md = .ok r) ∧
    ((md.clusterName = [] ∨ (∃ e, getRegionFromAWSCluster store md = .error e)) →
      ((∀ r, lookupS md.annotations RegionAnnotation = some r → r ≠ [] →
        ResolveRegion store md = .ok r) ∧
       ((lookupS md.annotations RegionAnnotation = none ∨
         lookupS md.annotations RegionAnnotation = some []) →
        ResolveRegion store md =
          .error (str "unable to determine AWS region from AWSCluster or annotation")))) := by
  have hvia : ∀ r, getRegionFromAWSCluster store md = .ok r → r ≠ [] := by
    intro r h
    unfold getRegionFromAWSCluster at h
    rcases h1 : store.clusters ⟨md.clusterName, md.nspace⟩ with _ | cluster
    all_goals rw [h1] at h
    · exact absurd h (by simp)
    · dsimp only at h
      rcases h2 : cluster.infrastructureRef with _ | ref
      all_goals rw [h2] at h
      · exact absurd h (by simp)
      · dsimp only at h
        by_cases h3 : ref.name = []
        · rw [if_pos h3] at h
          exact absurd h (by simp)
        · rw [if_neg h3] at h
          rcases h4 : store.awsClusters
              ⟨ref.name, if ref.nspace = [] then cluster.nspace else ref.nspace⟩
            with _ | aws
          all_goals rw [h4] at h
          · exact absurd h (by simp)
          · dsimp only at h
            by_cases h5 : aws.region = []
            · rw [if_pos h5] at h
              exact absurd h (by simp)
            · rw [if_neg h5] at h
              simp only [Except.ok.injEq] at h
              rw [← h]
              exact h5
  refine ⟨hvia, ?_, ?_⟩
  · intro r hcn hok
    simp only [ResolveRegion]
    rw [if_pos hcn, hok]
  · intro hfail
    have hnone : (if md.clusterName ≠ [] then
        match getRegionFromAWSCluster store md with
        | .ok region => some region
        | .error _ => none else none) = (none : Option Str) := by
      rcases hfail with hcn | ⟨e, he⟩
      · rw [if_neg (by simp [hcn])]
      · by_cases hcn : md.clusterName ≠ []
        · rw [if_pos hcn, he]
        · rw [if_neg hcn]
    constructor
    · intro r hr hrne
      simp only [ResolveRegion]
      rw [hnone, hr]
      dsimp only
      rw [if_pos hrne]
    · intro hn
      simp only [ResolveRegion]
      rw [hnone]
      rcases hn with hn | hn
      · rw [hn]
      · rw [hn]
        dsimp only
        rw [if_neg (by simp)]

theorem resolveRegion_ordered_chain_witness :
    ResolveRegion
      ⟨fun _ => none, fun _ => none, fun _ => none⟩
      ⟨str "md", str "default",
        [( RegionAnnotation, str "us-west-2")],
        str "cluster", ⟨str "AWSMachineTemplate", str "tmpl", []⟩⟩ =
      .ok (str "us-west-2") := by
  apply ((resolveRegion_ordered_chain _ _).2.2 ?_).1 (str "us-west-2") ?_ ?_
  · right
    exact ⟨str "failed to fetch Cluster", rfl⟩
  · simp [lookupS]
  · decide

/-- C4: an instance-type cache get on a region entry younger than 24 hours
triggers no bulk fetch and leaves the cache unchanged; a get on a miss or
an entry at least 24 hours old triggers exactly one full paginated bulk
fetch (all pages accumulated), replaces that region's entire set wholesale
with the freshly fetched catalog stamped at the current time, and touches
no other region's entry. -/
theorem instance_type_cache_ttl (st : InstanceTypesCacheState) (now : Nat)
    (pages : List (List (Str × InstanceType))) (region name : Str) :
    (∀ rs, lookupS st.regions region = some rs →
      now - rs.fetchedAt < cacheRefreshPeriod →
      (GetInstanceType st now pages region name).2.1 = 0 ∧
      (GetInstanceType st now pages region name).1 = st) ∧
    ((lookupS st.regions region = none ∨
      (∃ rs, lookupS st.regions region = some rs ∧
        cacheRefreshPeriod ≤ now - rs.fetchedAt)) →
      (GetInstanceType st now pages region name).2.1 = 1 ∧
      lookupS (GetInstanceType st now pages region name).1.regions region =
        some ⟨pages.flatten, now⟩ ∧
      (∀ r2, r2 ≠ region →
        lookupS (GetInstanceType st now pages region name).1.regions r2 =
          lookupS st.regions r2)) := by
  constructor
  · intro rs hrs hfresh
    have hrn : refreshNeeded st region now = false := by
      unfold refreshNeeded
      rw [hrs]
      dsimp only
      exact decide_eq_false (not_le.mpr hfresh)
    unfold GetInstanceType
    rw [hrn]
    simp
  · intro hstale
    have hrn : refreshNeeded st region now = true := by
      unfold refreshNeeded
      rcases hstale with hn | ⟨rs, hrs, hle⟩
      · rw [hn]
      · rw [hrs]
        dsimp only
        exact decide_eq_true hle
    unfold GetInstanceType
    rw [hrn]
    dsimp only [if_true]
    refine ⟨rfl, lookupS_insertS_self _ _ _, ?_⟩
    intro r2 hne
    exact lookupS_insertS_ne _ _ _ _ hne

theorem instance_type_cache_ttl_witness :
    (GetInstanceType ⟨[(str "us-east-1", ⟨[(str "a1.2xlarge",
        ⟨str "a1.2xlarge", 8, 16384, 0, .amd64⟩)], 0⟩)]⟩ 3600 [] (str "us-east-1")
      (str "a1.2xlarge")).2.1 = 0 ∧
    (GetInstanceType ⟨[(str "us-east-1", ⟨[(str "a1.2xlarge",
        ⟨str "a1.2xlarge", 8, 16384, 0, .amd64⟩)], 0⟩)]⟩ 3600 [] (str "us-east-1")
      (str "a1.2xlarge")).1 =
      ⟨[(str "us-east-1", ⟨[(str "a1.2xlarge",
        ⟨str "a1.2xlarge", 8, 16384, 0, .amd64⟩)], 0⟩)]⟩ ∧
    (GetInstanceType ⟨[]⟩ 90000 [[(str "m5.large",
        ⟨str "m5.large", 2, 8192, 0, .amd64⟩)]] (str "us-east-1")
      (str "m5.large")).2.1 = 1 ∧
    lookupS (GetInstanceType ⟨[]⟩ 90000 [[(str "m5.large",
        ⟨str "m5.large", 2, 8192, 0, .amd64⟩)]] (str "us-east-1")
      (str "m5.large")).1.regions (str "us-east-1") =
      some ⟨[(str "m5.large", ⟨str "m5.large", 2, 8192, 0, .amd64⟩)], 90000⟩ := by
  have h1 := (instance_type_cache_ttl ⟨[(str "us-east-1", ⟨[(str "a1.2xlarge",
      ⟨str "a1.2xlarge", 8, 16384, 0, .amd64⟩)], 0⟩)]⟩ 3600 [] (str "us-east-1")
    (str "a1.2xlarge")).1 ⟨[(str "a1.2xlarge",
      ⟨str "a1.2xlarge", 8, 16384, 0, .amd64⟩)], 0⟩ (by decide) (by decide)
  have h2 := (instance_type_cache_ttl ⟨[]⟩ 90000 [[(str "m5.large",
      ⟨str "m5.large", 2, 8192, 0, .amd64⟩)]] (str "us-east-1")
    (str "m5.large")).2 (Or.inl (by decide))
  exact ⟨h1.1, h1.2, h2.1, h2.2.1⟩

/-- The result component of a cache get is the lookup of the requested name
in the up-to-date per-region set. -/
theorem getInstanceType_result (st : InstanceTypesCacheState) (now : Nat)
    (pages : List (List (Str × InstanceType))) (region name : Str) :
    (GetInstanceType st now pages region name).2.2 =
      match lookupS (upToDateEntries st now pages region) name with
      | some info => .ok info
      | none => .error (unknownInstanceTypeMsg name) := by
  unfold GetInstanceType upToDateEntries
  cases hrn : refreshNeeded st region now with
  | true => simp [lookupS_insertS_self]
  | false =>
    rcases hl : lookupS st.regions region with _ | rs
    · exfalso
      unfold refreshNeeded at hrn
      rw [hl] at hrn
      simp at hrn
    · simp [hl]

/-- C3: when the resolved instance-type name is absent from the up-to-date
per-region set, the cache get yields the unknown-instance-type error, and
`reconcile` — its template, region and client steps having succeeded —
leaves the MachineDeployment (its annotation map included) unmodified and
returns without error, so the condition is terminal and not requeued. -/
theorem reconcile_unknown_instance_type_terminal
    (store : KubeStore) (md : MachineDeployment)
    (st : InstanceTypesCacheState) (now : Nat)
    (pages : List (List (Str × InstanceType)))
    (template : AWSMachineTemplate) (instanceTypeName region : Str)
    (h1 : ResolveAWSMachineTemplate store md = .ok template)
    (h2 : ExtractInstanceType template = .ok instanceTypeName)
    (h3 : ResolveRegion store md = .ok region)
    (hmiss : lookupS (upToDateEntries st now pages region) instanceTypeName = none) :
    (GetInstanceType st now pages region instanceTypeName).2.2 =
      .error (unknownInstanceTypeMsg instanceTypeName) ∧
    reconcile store none
      (fun r n => (GetInstanceType st now pages r n).2.2) md = (md, none) := by
  have herr : (GetInstanceType st now pages region instanceTypeName).2.2 =
      .error (unknownInstanceTypeMsg instanceTypeName) := by
    rw [getInstanceType_result, hmiss]
  refine ⟨herr, ?_⟩
  unfold reconcile
  rw [h1]
  dsimp only
  rw [h2]
  dsimp only
  rw [h3]
  dsimp only
  rw [herr]

theorem reconcile_unknown_instance_type_terminal_witness :
    (GetInstanceType ⟨[]⟩ 0 [[(str "m5.large",
        ⟨str "m5.large", 2, 8192, 0, .amd64⟩)]] (str "us-east-1")
      (str "a1.2xlarge")).2.2 =
      .error (unknownInstanceTypeMsg (str "a1.2xlarge")) ∧
    reconcile
      ⟨fun _ => none, fun _ => none,
        fun k => if k = ⟨str "tmpl", str "default"⟩
          then some ⟨str "a1.2xlarge"⟩ else none⟩
      none
      (fun r n => (GetInstanceType ⟨[]⟩ 0 [[(str "m5.large",
        ⟨str "m5.large", 2, 8192, 0, .amd64⟩)]] r n).2.2)
      ⟨str "md", str "default", [( RegionAnnotation, str "us-east-1")], [],
        ⟨str "AWSMachineTemplate", str "tmpl", []⟩⟩ =
      (⟨str "md", str "default", [( RegionAnnotation, str "us-east-1")], [],
        ⟨str "AWSMachineTemplate", str "tmpl", []⟩⟩, none) :=
  reconcile_unknown_instance_type_terminal _ _ ⟨[]⟩ 0 _ ⟨str "a1.2xlarge"⟩
    (str "a1.2xlarge") (str "us-east-1") (by decide) (by decide) (by decide)
    (by decide)

/-- C10: region-cache invariant and error atomicity — the session's
configured region is restored after every call (the session state comes
back unchanged); a call that returns an error leaves the cache map
completely unchanged, so the error is never stored and the next call with
the same credential key retries the fetch; and every entry ever stored
holds a non-nil `DescribeRegions` output and a nil error, its
`lastUpdated` stamped at store time (any entry of the new map was either
already present or carries the current time). -/
theorem getCachedDescribeRegions_invariants (c : RegionCacheState)
    (s : SessionState) (now : Nat)
    (fetch : Str → Except Str DescribeRegionsOutput) :
    ((GetCachedDescribeRegions c s now fetch).2.1 = s) ∧
    (∀ e, (GetCachedDescribeRegions c s now fetch).2.2.1 = .error e →
      (GetCachedDescribeRegions c s now fetch).1 = c) ∧
    ((∀ k d, lookupS c.data k = some d →
        d.err = none ∧ d.describeRegionsOutput ≠ none) →
      ∀ k d, lookupS (GetCachedDescribeRegions c s now fetch).1.data k = some d →
        (d.err = none ∧ d.describeRegionsOutput ≠ none) ∧
        (lookupS c.data k = some d ∨ d.lastUpdated = now)) := by
  obtain ⟨sregion, scredsResult⟩ := s
  unfold GetCachedDescribeRegions
  rcases scredsResult with e0 | key
  · exact ⟨rfl, fun e h => rfl, fun hinv k d hl => ⟨hinv k d hl, Or.inl hl⟩⟩
  · dsimp only
    set rd := (lookupS c.data key).getD ⟨none, none, 0⟩ with hrd
    have hrderr : ∀ (hinv : ∀ k d, lookupS c.data k = some d →
        d.err = none ∧ d.describeRegionsOutput ≠ none), rd.err = none := by
      intro hinv
      rcases hl0 : lookupS c.data key with _ | d0
      · rw [hrd, hl0]
        rfl
      · rw [hrd, hl0]
        exact (hinv key d0 hl0).1
    rcases hout : rd.describeRegionsOutput with _ | cached <;>
      rcases herr : rd.err with _ | e1 <;>
        cases hfr : decide (now - rd.lastUpdated < awsRegionsCacheExpirationDuration)
    all_goals rcases hf : fetch (str "us-east-1") with e2 | out
    all_goals
      try exact ⟨rfl, fun e h => rfl, fun hinv k d hl => ⟨hinv k d hl, Or.inl hl⟩⟩
    all_goals refine ⟨rfl, fun e h => absurd h (by simp), ?_⟩
    all_goals intro hinv k d hl
    all_goals dsimp only at hl
    all_goals by_cases hk : k = key
    all_goals
      try (rw [lookupS_insertS_ne _ _ _ _ hk] at hl
           exact ⟨hinv k d hl, Or.inl hl⟩)
    all_goals subst hk
    all_goals rw [lookupS_insertS_self, Option.some.injEq] at hl
    all_goals subst hl
    all_goals exact ⟨⟨herr.symm.trans (hrderr hinv), by simp⟩, Or.inr rfl⟩

theorem getCachedDescribeRegions_invariants_witness :
    (GetCachedDescribeRegions ⟨[]⟩ ⟨str "eu-west-1", .ok (str "AKIA")⟩ 0
      (fun _ => .error (str "throttled"))).2.1 =
      ⟨str "eu-west-1", .ok (str "AKIA")⟩ ∧
    (GetCachedDescribeRegions ⟨[]⟩ ⟨str "eu-west-1", .ok (str "AKIA")⟩ 0
      (fun _ => .error (str "throttled"))).1 = ⟨[]⟩ ∧
    ∀ k d,
      lookupS (GetCachedDescribeRegions ⟨[]⟩ ⟨str "eu-west-1", .ok (str "AKIA")⟩ 0
        (fun _ => .ok [some ⟨str "us-east-1", str "opt-in-not-required"⟩])).1.data
        k = some d →
      (d.err = none ∧ d.describeRegionsOutput ≠ none) ∧
      (lookupS (⟨[]⟩ : RegionCacheState).data k = some d ∨ d.lastUpdated = 0) := by
  refine ⟨(getCachedDescribeRegions_invariants _ _ _ _).1,
    (getCachedDescribeRegions_invariants _ _ _ _).2.1 (str "throttled") (by decide),
    ?_⟩
  exact (getCachedDescribeRegions_invariants _ _ _ _).2.2
    (fun k d hl => by simp [lookupS] at hl)

theorem reconcile_labels_merge_frame_witness :
    lookupS (setCapacityAnnotations
        [(labelsKey, str "foo=bar,kubernetes.io/arch=x86"),
          (str "existing", str "annotation")]
        ⟨str "a1.2xlarge", 8, 16384, 0, .amd64⟩) (str "existing") =
      lookupS [(labelsKey, str "foo=bar,kubernetes.io/arch=x86"),
          (str "existing", str "annotation")] (str "existing") :=
  (reconcile_labels_merge_frame
    [(labelsKey, str "foo=bar,kubernetes.io/arch=x86"),
      (str "existing", str "annotation")]
    ⟨str "a1.2xlarge", 8, 16384, 0, .amd64⟩
    [(str "foo", str "bar"), (archLabelKey, str "x86")]
    (by
      intro e he
      simp only [List.mem_cons, List.not_mem_nil, or_false] at he
      rcases he with he | he <;> subst he <;>
        refine ⟨by decide, by decide, by decide, ?_, ?_⟩ <;>
        (intro c hc
         simp [str, archLabelKey] at hc
         subst hc
         decide))
    (by decide) (by decide)).2 (str "existing")
    (by decide) (by decide) (by decide) (by decide)

end CapaAnnotator
